import Mathlib

/-!
Verification development for the AiBLE PDF research-assistant backend
(`src/backend`): the chunking algorithm (`document_processor.py`), the
summary heuristic, the three-store system state (raw files, vector index,
metadata records) and the ingestion / deletion orchestration
(`main.py`, `document_manager.py`, `vector_store.py`).

Python strings are modelled as Lean `String` (a list of characters, so
`len` is `String.length` and slicing is `List.take`/`List.drop` on
`String.data`).  `uuid.uuid4()` identifiers are modelled by a
deterministic fresh-name generator; the spec (§4.1) requires tests to
treat identifiers as opaque and key on `chunk_index`, so nothing below
depends on their value.
-/

/-- `models.DocumentChunk` (models.py lines 6-12). -/
structure DocumentChunk where
  id : String
  document_id : String
  content : String
  chunk_index : Nat
  start_char : Nat
  end_char : Nat
deriving DecidableEq

/-- `models.Document` (models.py lines 15-23); `created_at` is a timestamp. -/
structure Document where
  id : String
  name : String
  file_type : String
  file_path : String
  summary : String
  chunks : List DocumentChunk
  created_at : Nat
  file_size : Nat
deriving DecidableEq

/-- `models.DocumentSummary` (models.py lines 44-50). -/
structure DocumentSummary where
  id : String
  name : String
  file_type : String
  summary : String
  created_at : Nat
  file_size : Nat
deriving DecidableEq

/-- Python `sep.join(ws)`: words joined by the separator, no separator
around the ends. -/
def joinSep (sep : String) : List String → String
  | [] => ""
  | [w] => w
  | w :: v :: ws => w ++ sep ++ joinSep sep (v :: ws)

/-- `" ".join(ws)` as used throughout `document_processor.py`. -/
def joinSp (ws : List String) : String := joinSep " " ws

/-- Accumulator loop behind `pySplit`: walk the characters, collecting the
current (reversed) word in `acc`; whitespace flushes the word. -/
def pySplitAux : List Char → List Char → List String
  | [], acc => if acc.isEmpty then [] else [String.mk acc.reverse]
  | c :: cs, acc =>
    if c.isWhitespace then
      if acc.isEmpty then pySplitAux cs []
      else String.mk acc.reverse :: pySplitAux cs []
    else pySplitAux cs (c :: acc)

/-- Python `text.split()` (no argument): split on runs of whitespace,
discarding empty pieces, as used in `_create_chunks` (line 83). -/
def pySplit (text : String) : List String := pySplitAux text.data []

/-- Deterministic model of the per-chunk `uuid.uuid4()` (line 107). -/
def mkChunkId (doc_id : String) (chunk_index : Nat) : String :=
  doc_id ++ "#" ++ toString chunk_index

/-- `start_char` bookkeeping of `_create_chunks` (lines 101-103):
the length of the joined prefix `words[:start_idx]`, plus one for the
separating space when `start_idx > 0`. -/
def startCharAt (words : List String) (start_idx : Nat) : Nat :=
  let base := (joinSp (words.take start_idx)).length
  if 0 < start_idx then base + 1 else base

/-- One iteration body of the `while` loop of `_create_chunks`
(lines 94-115), with `chunk_size = 600` (line 88): the chunk emitted when
the cursor is at `start_idx`. -/
def chunkAt (words : List String) (doc_id : String) (start_idx chunk_index : Nat) :
    DocumentChunk :=
  let end_idx := min (start_idx + 600) words.length
  let chunk_content := joinSp ((words.drop start_idx).take (end_idx - start_idx))
  let start_char := startCharAt words start_idx
  { id := mkChunkId doc_id chunk_index
    document_id := doc_id
    content := chunk_content
    chunk_index := chunk_index
    start_char := start_char
    end_char := start_char + chunk_content.length }

/-- The `while start_idx < len(words)` loop of `_create_chunks`
(lines 94-122), with `chunk_size = 600` and `overlap_size = 100`
(lines 88-89): emit the window at the cursor; stop when the window reached
the end of the word sequence, otherwise advance the cursor to
`end_idx - overlap_size`.  The extra `fuel` argument only bounds the
recursion so the definition is structural; when
`fuel ≥ words.length - start_idx` the fuel-out branch is never reached
(`createChunksLoop_end` / `createChunksLoop_step` below), mirroring the
loop's actual termination: each iteration advances the cursor by
`600 - 100 = 500` words or ends the loop. -/
def createChunksLoop (words : List String) (doc_id : String) :
    Nat → Nat → Nat → List DocumentChunk
  | 0, _, _ => []
  | fuel + 1, start_idx, chunk_index =>
    if start_idx < words.length then
      let end_idx := min (start_idx + 600) words.length
      if words.length ≤ end_idx then
        [chunkAt words doc_id start_idx chunk_index]
      else
        chunkAt words doc_id start_idx chunk_index ::
          createChunksLoop words doc_id fuel (end_idx - 100) (chunk_index + 1)
    else []

/-- `PDFProcessor._create_chunks` (document_processor.py lines 77-124). -/
def createChunks (text doc_id : String) : List DocumentChunk :=
  let words := pySplit text
  if words.isEmpty then [] else createChunksLoop words doc_id words.length 0 0

/-- The whitespace-normalized text: the words of `text` joined by single
spaces.  `_create_chunks` computes every offset against this string. -/
def normJoin (text : String) : String := joinSp (pySplit text)

/-- Executable "occurs as a contiguous substring" test on character
lists. -/
def occursIn (needle hay : List Char) : Bool :=
  (List.range (hay.length + 1)).any fun k => (hay.drop k).take needle.length = needle


/- ### The summary heuristic -/

/-- Python `summary.endswith('.')` (document_processor.py line 141). -/
def endsWithDot (s : String) : Bool := s.data.getLast? = some '.'

/-- Lines 141-142 of document_processor.py: append a trailing period if
the summary does not end with one. -/
def dotSummary (summary : String) : String :=
  if endsWithDot summary then summary else summary ++ "."

/-- Lines 144-146 of document_processor.py: truncate to 300 characters
with an ellipsis (`summary[:297] + "..."`). -/
def capSummary (summary : String) : String :=
  if 300 < summary.length then String.mk (summary.data.take 297) ++ "..." else summary

/-- `PDFProcessor._generate_summary` (document_processor.py lines
126-148): join the chunk contents, split into sentences on `". "`, keep
the first 3, re-join with `". "`, add a trailing period, cap at 300
characters, and fall back to fixed text for an empty result. -/
def generateSummary (chunks : List DocumentChunk) : String :=
  if chunks.isEmpty then "No content available"
  else
    let combined_text := joinSp (chunks.map (fun c => c.content))
    let summary := joinSep ". " ((combined_text.splitOn ". ").take 3)
    let final := capSummary (dotSummary summary)
    if final = "" then "Document content extracted successfully" else final

/-- The summary the ingestion pipeline derives:
`_generate_summary(chunks[:3])` (document_processor.py line 34). -/
def processSummary (chunks : List DocumentChunk) : String :=
  generateSummary (chunks.take 3)


/- ### The three stores and their operations -/

/-- One ChromaDB collection entry as built by `VectorStore.add_document`
(vector_store.py lines 39-65): chunk text plus per-chunk metadata. -/
structure VecEntry where
  chunk_id : String
  document_id : String
  document_name : String
  chunk_index : Nat
  start_char : Nat
  end_char : Nat
  file_type : String
  content : String
deriving DecidableEq

/-- The three persistent stores: raw files in the sources directory,
the vector index collection, and the `document_metadata.json` record set
(a dict keyed by document id, modelled as an association list with
unique keys). -/
structure SysState where
  files : List String
  vectors : List VecEntry
  metadata : List (String × Document)
deriving DecidableEq

/-- `PDFProcessor.delete_file` (document_processor.py lines 170-185):
remove the file if it exists and report whether it did. -/
def deleteFile (st : SysState) (path : String) : Bool × SysState :=
  if path ∈ st.files then
    (true, { st with files := st.files.filter (fun q => q != path) })
  else
    (false, st)

def vecEntryOf (doc : Document) (c : DocumentChunk) : VecEntry :=
  { chunk_id := c.id
    document_id := doc.id
    document_name := doc.name
    chunk_index := c.chunk_index
    start_char := c.start_char
    end_char := c.end_char
    file_type := doc.file_type
    content := c.content }

/-- `VectorStore.add_document` (vector_store.py lines 34-72).  The `ok`
flag models the failure policy at the component boundary (spec §4.2):
an embedding-provider or index-backend error is caught and converted to
a `false` return, in which case nothing was inserted. -/
def vsAddDocument (ok : Bool) (st : SysState) (doc : Document) : Bool × SysState :=
  if ok then
    (true, { st with vectors := st.vectors ++ doc.chunks.map (vecEntryOf doc) })
  else
    (false, st)

/-- The collection entries belonging to a document
(`collection.get(where={"document_id": ...})`). -/
def vectorsFor (st : SysState) (doc_id : String) : List VecEntry :=
  st.vectors.filter (fun e => e.document_id == doc_id)

/-- `VectorStore.delete_document` (vector_store.py lines 121-145): if any
entries carry this `document_id`, delete them all and return `true`;
otherwise report "nothing found" with `false` and leave the collection
unchanged. -/
def vsDeleteDocument (st : SysState) (doc_id : String) : Bool × SysState :=
  if (st.vectors.filter (fun e => e.document_id == doc_id)).isEmpty then
    (false, st)
  else
    (true, { st with vectors := st.vectors.filter (fun e => e.document_id != doc_id) })

/-- Python dict lookup `self.documents.get(doc_id)`
(document_manager.py line 62). -/
def lookupDoc (m : List (String × Document)) (doc_id : String) : Option Document :=
  (m.find? (fun p => p.1 == doc_id)).map (fun p => p.2)

/-- `DocumentManager.get_document`. -/
def getDocument (st : SysState) (doc_id : String) : Option Document :=
  lookupDoc st.metadata doc_id

/-- `DocumentManager.add_document` (document_manager.py lines 53-59):
refuse a duplicate id with `false`; otherwise insert the record and
persist (`_save_metadata`, whose IOError is logged, not raised). -/
def dmAddDocument (st : SysState) (doc : Document) : Bool × SysState :=
  if (lookupDoc st.metadata doc.id).isSome then
    (false, st)
  else
    (true, { st with metadata := st.metadata ++ [(doc.id, doc)] })

def summarize (doc : Document) : DocumentSummary :=
  { id := doc.id
    name := doc.name
    file_type := doc.file_type
    summary := doc.summary
    created_at := doc.created_at
    file_size := doc.file_size }

/-- One step of the stable insertion modelling Python
`sorted(..., key=created_at, reverse=True)`. -/
def insertDesc (x : DocumentSummary) : List DocumentSummary → List DocumentSummary
  | [] => [x]
  | t :: ts => if x.created_at < t.created_at then t :: insertDesc x ts else x :: t :: ts

def sortByCreatedDesc : List DocumentSummary → List DocumentSummary
  | [] => []
  | x :: xs => insertDesc x (sortByCreatedDesc xs)

/-- `DocumentManager.get_all_documents` (document_manager.py lines
64-78): summaries of every metadata record, newest first. -/
def getAllDocuments (st : SysState) : List DocumentSummary :=
  sortByCreatedDesc (st.metadata.map (fun p => summarize p.2))

/-- The three removals `DocumentManager.delete_document` attempts, in
source order (document_manager.py lines 85-97). -/
inductive DeleteAction where
  | vecDelete (doc_id : String)
  | fileDelete (path : String)
  | metaDelete (doc_id : String)
deriving DecidableEq

/-- `DocumentManager.delete_document` (document_manager.py lines 80-100),
returning the success flag, the new state, and the trace of attempted
removals.  `vsOk` / `fileOk` inject dependency failures into the vector
store delete and the file delete (each source operation catches its own
exceptions and returns `false`); either failure is logged and the
remaining steps still run. -/
def dmDeleteDocument (vsOk fileOk : Bool) (st : SysState) (doc_id : String) :
    Bool × SysState × List DeleteAction :=
  match getDocument st doc_id with
  | none => (false, st, [])
  | some document =>
    let r1 := if vsOk then vsDeleteDocument st doc_id else (false, st)
    let r2 := if fileOk then deleteFile r1.2 document.file_path else (false, r1.2)
    let trace := [DeleteAction.vecDelete doc_id,
                  DeleteAction.fileDelete document.file_path,
                  DeleteAction.metaDelete doc_id]
    if (lookupDoc r2.2.metadata doc_id).isSome then
      (true, { r2.2 with metadata := r2.2.metadata.filter (fun p => p.1 != doc_id) }, trace)
    else
      (false, r2.2, trace)

/-- Outcome of the `/upload` route. -/
inductive UploadResult where
  | success (summary : DocumentSummary)
  | failure (status : Nat) (detail : String)
deriving DecidableEq

/-- The ingestion orchestration of `upload_document` (main.py lines
135-179) from the point where the raw file is saved, for a successfully
extracted and chunked `doc`.  `vsAddOk` injects a vector-store failure
(`add_document` returning `false`).  Each failure branch mirrors the
source: the inner handler's compensation runs first, then the raised
`HTTPException` passes through the outer `except Exception` handler
(line 178) whose repeated `delete_file` is a no-op. -/
def uploadDocument (vsAddOk : Bool) (st : SysState) (doc : Document) :
    UploadResult × SysState :=
  let st1 : SysState := { st with files := doc.file_path :: st.files }
  let va := vsAddDocument vsAddOk st1 doc
  if va.1 = false then
    let d1 := deleteFile va.2 doc.file_path
    let d2 := deleteFile d1.2 doc.file_path
    (UploadResult.failure 500 "Failed to add document to vector store", d2.2)
  else
    let ma := dmAddDocument va.2 doc
    if ma.1 = false then
      let d1 := deleteFile ma.2 doc.file_path
      let vd := vsDeleteDocument d1.2 doc.id
      let d2 := deleteFile vd.2 doc.file_path
      (UploadResult.failure 500 "Failed to save document metadata", d2.2)
    else
      (UploadResult.success (summarize doc), ma.2)

/- ### Basic string and join lemmas -/

theorem string_length_data (s : String) : s.length = s.data.length := rfl

theorem string_data_append (a b : String) : (a ++ b).data = a.data ++ b.data := rfl

theorem string_length_append (a b : String) :
    (a ++ b).length = a.length + b.length := by
  simp only [string_length_data, string_data_append, List.length_append]

theorem string_eq_empty_iff (s : String) : s = "" ↔ s.data = [] := by
  cases s with
  | mk d => simp [String.ext_iff]

theorem joinSp_nil : joinSp [] = "" := rfl

theorem joinSp_single (w : String) : joinSp [w] = w := rfl

theorem joinSp_cons_cons (w v : String) (ws : List String) :
    joinSp (w :: v :: ws) = w ++ " " ++ joinSp (v :: ws) := rfl

theorem joinSp_length_cons (w : String) (ws : List String) (h : ws ≠ []) :
    (joinSp (w :: ws)).length = w.length + 1 + (joinSp ws).length := by
  cases ws with
  | nil => exact absurd rfl h
  | cons v vs =>
    rw [joinSp_cons_cons, string_length_append, string_length_append]
    rfl

theorem joinSp_append (xs ys : List String) (hx : xs ≠ []) (hy : ys ≠ []) :
    joinSp (xs ++ ys) = joinSp xs ++ " " ++ joinSp ys := by
  induction xs with
  | nil => exact absurd rfl hx
  | cons w xs ih =>
    cases xs with
    | nil =>
      cases ys with
      | nil => exact absurd rfl hy
      | cons v vs => simp [joinSp_single, joinSp_cons_cons]
    | cons x xs' =>
      have h1 : (w :: x :: xs') ++ ys = w :: ((x :: xs') ++ ys) := rfl
      rw [h1, joinSp_cons_cons w x xs']
      cases hys : (x :: xs') ++ ys with
      | nil => simp at hys
      | cons z zs =>
        rw [← hys]
        have h2 : joinSp (w :: ((x :: xs') ++ ys)) = w ++ " " ++ joinSp ((x :: xs') ++ ys) := by
          rw [hys]; exact joinSp_cons_cons w z zs
        rw [h2, ih (by simp)]
        simp only [String.append_assoc]

theorem joinSp_length_le_append (xs ys : List String) :
    (joinSp xs).length ≤ (joinSp (xs ++ ys)).length := by
  cases hx : xs with
  | nil =>
    show ("" : String).length ≤ _
    exact Nat.zero_le _
  | cons w ws =>
    cases hy : ys with
    | nil => simp
    | cons v vs =>
      rw [← hx, ← hy, joinSp_append xs ys (by simp [hx]) (by simp [hy]),
        string_length_append, string_length_append]
      omega

/-- Monotonicity of the joined-prefix length in the prefix size. -/
theorem joinSp_take_length_mono (words : List String) {m n : Nat} (h : m ≤ n) :
    (joinSp (words.take m)).length ≤ (joinSp (words.take n)).length := by
  have h1 : words.take n = words.take m ++ (words.drop m).take (n - m) := by
    have h2 : n = m + (n - m) := by omega
    conv_lhs => rw [h2, List.take_add]
  rw [h1]
  exact joinSp_length_le_append _ _

theorem joinSp_head_length_le (w : String) (ws : List String) :
    w.length ≤ (joinSp (w :: ws)).length := by
  cases ws with
  | nil => exact Nat.le_refl _
  | cons v vs =>
    rw [joinSp_cons_cons, string_length_append, string_length_append]
    omega

/- ### pySplit facts -/

theorem string_mk_ne_empty (l : List Char) (h : l ≠ []) : String.mk l ≠ "" := by
  simpa [string_eq_empty_iff] using h

theorem pySplitAux_ne_empty :
    ∀ (cs acc : List Char), ∀ w ∈ pySplitAux cs acc, w ≠ "" := by
  intro cs
  induction cs with
  | nil =>
    intro acc w hw
    simp only [pySplitAux] at hw
    by_cases h : acc.isEmpty
    · simp [h] at hw
    · simp [h] at hw
      subst hw
      exact string_mk_ne_empty _ (by simpa [List.isEmpty_iff] using h)
  | cons c cs ih =>
    intro acc w hw
    simp only [pySplitAux] at hw
    by_cases hws : c.isWhitespace
    · by_cases h : acc.isEmpty
      · simp [hws, h] at hw
        exact ih [] w hw
      · simp [hws, h] at hw
        rcases hw with hw | hw
        · subst hw
          exact string_mk_ne_empty _ (by simpa [List.isEmpty_iff] using h)
        · exact ih [] w hw
    · simp [hws] at hw
      exact ih (c :: acc) w hw

/-- Every word produced by Python `text.split()` is non-empty. -/
theorem pySplit_ne_empty (text : String) : ∀ w ∈ pySplit text, w ≠ "" :=
  pySplitAux_ne_empty text.data []

theorem pySplit_collapses_runs : pySplit "a  b" = ["a", "b"] := by decide

/- ### Offset bookkeeping of the chunk loop -/

theorem startCharAt_zero (words : List String) : startCharAt words 0 = 0 := rfl

theorem startCharAt_pos (words : List String) (s : Nat) (h : 0 < s) :
    startCharAt words s = (joinSp (words.take s)).length + 1 := by
  simp [startCharAt, h]

theorem startCharAt_mono (words : List String) {s s' : Nat} (h : s ≤ s') :
    startCharAt words s ≤ startCharAt words s' := by
  rcases Nat.eq_zero_or_pos s with rfl | hs
  · rw [startCharAt_zero]
    exact Nat.zero_le _
  · rw [startCharAt_pos _ _ hs, startCharAt_pos _ _ (Nat.lt_of_lt_of_le hs h)]
    exact Nat.succ_le_succ (joinSp_take_length_mono _ h)

/-- `start_char + len(chunk_content)` is the length of the joined prefix
`words[:end_idx]`: the `end_char` a window `[s, e)` gets is exactly where
word `e` ends in the normalized text. -/
theorem end_char_formula (words : List String) {s e : Nat} (hse : s < e)
    (hel : e ≤ words.length) :
    startCharAt words s + (joinSp ((words.drop s).take (e - s))).length
      = (joinSp (words.take e)).length := by
  have hsplit : words.take e = words.take s ++ (words.drop s).take (e - s) := by
    have h2 : e = s + (e - s) := by omega
    conv_lhs => rw [h2, List.take_add]
  rcases Nat.eq_zero_or_pos s with rfl | hs
  · rw [startCharAt_zero, hsplit]
    simp
  · have hwne : words ≠ [] := by
      intro hnil
      rw [hnil] at hel
      simp at hel
      omega
    have hts : words.take s ≠ [] := by
      rw [Ne, List.take_eq_nil_iff]
      push_neg
      exact ⟨by omega, hwne⟩
    have htm : (words.drop s).take (e - s) ≠ [] := by
      rw [Ne, List.take_eq_nil_iff]
      push_neg
      refine ⟨by omega, ?_⟩
      rw [Ne, List.drop_eq_nil_iff]
      omega
    rw [hsplit, joinSp_append _ _ hts htm, string_length_append, string_length_append,
      startCharAt_pos _ _ hs]
    have hsp : (" " : String).length = 1 := rfl
    omega

theorem chunkAt_index (words : List String) (doc : String) (s i : Nat) :
    (chunkAt words doc s i).chunk_index = i := rfl

theorem chunkAt_content (words : List String) (doc : String) (s i : Nat) :
    (chunkAt words doc s i).content
      = joinSp ((words.drop s).take (min (s + 600) words.length - s)) := rfl

theorem chunkAt_start_char (words : List String) (doc : String) (s i : Nat) :
    (chunkAt words doc s i).start_char = startCharAt words s := rfl

theorem chunkAt_end_char (words : List String) (doc : String) (s i : Nat) :
    (chunkAt words doc s i).end_char
      = startCharAt words s + (chunkAt words doc s i).content.length := rfl

theorem chunkAt_content_pos (words : List String) (doc : String) (s i : Nat)
    (hw : ∀ w ∈ words, w ≠ "") (hs : s < words.length) :
    0 < (chunkAt words doc s i).content.length := by
  rw [chunkAt_content]
  have hd : words.drop s = words.get ⟨s, hs⟩ :: words.drop (s + 1) := by
    rw [List.drop_eq_getElem_cons hs]
    rfl
  have h1 : min (s + 600) words.length - s = (min (s + 600) words.length - s - 1) + 1 := by
    omega
  rw [hd, h1, List.take_succ_cons]
  have hle := joinSp_head_length_le (words.get ⟨s, hs⟩)
      ((words.drop (s + 1)).take (min (s + 600) words.length - s - 1))
  have hne : words.get ⟨s, hs⟩ ≠ "" := hw _ (List.get_mem words s hs)
  have hpos : 0 < (words.get ⟨s, hs⟩).length := by
    rw [string_length_data]
    rcases hdata : (words.get ⟨s, hs⟩).data with _ | ⟨c, t⟩
    · exact absurd ((string_eq_empty_iff _).mpr hdata) hne
    · simp
  omega

/-- `end_char` of the window at cursor `s` is the joined length of the
word prefix `words[:min(s+600, len)]`. -/
theorem chunkAt_end_char_take (words : List String) (doc : String) (s i : Nat)
    (hs : s < words.length) :
    (chunkAt words doc s i).end_char
      = (joinSp (words.take (min (s + 600) words.length))).length := by
  rw [chunkAt_end_char, chunkAt_content]
  exact end_char_formula words (by omega) (by omega)

/-- Consecutive cursors give non-decreasing `(start_char, end_char)`
pairs. -/
theorem chunkAt_offsets_mono (words : List String) (doc : String) {s s' : Nat}
    (i i' : Nat) (h : s ≤ s') (hs' : s' < words.length) :
    (chunkAt words doc s i).start_char ≤ (chunkAt words doc s' i').start_char
      ∧ (chunkAt words doc s i).end_char ≤ (chunkAt words doc s' i').end_char := by
  have hs : s < words.length := Nat.lt_of_le_of_lt h hs'
  constructor
  · rw [chunkAt_start_char, chunkAt_start_char]
    exact startCharAt_mono _ h
  · rw [chunkAt_end_char_take _ _ _ _ hs, chunkAt_end_char_take _ _ _ _ hs']
    exact joinSp_take_length_mono _ (by omega)

/- ### The chunk loop -/

/-- Final iteration: when the window reaches the end of the word sequence
the loop emits it and stops — no redundant trailing duplicate window. -/
theorem createChunksLoop_end (words : List String) (doc : String)
    (fuel start idx : Nat) (h1 : start < words.length)
    (h2 : words.length ≤ start + 600) (hf : 0 < fuel) :
    createChunksLoop words doc fuel start idx = [chunkAt words doc start idx] := by
  cases fuel with
  | zero => omega
  | succ f =>
    have hmin : min (start + 600) words.length = words.length := Nat.min_eq_right h2
    simp only [createChunksLoop, hmin]
    rw [if_pos h1, if_pos (Nat.le_refl _)]

/-- Non-final iteration: the loop emits the 600-word window at the cursor
and advances the cursor by `600 - 100 = 500` words. -/
theorem createChunksLoop_step (words : List String) (doc : String)
    (fuel start idx : Nat) (h2 : start + 600 < words.length) (hf : 0 < fuel) :
    createChunksLoop words doc fuel start idx
      = chunkAt words doc start idx
          :: createChunksLoop words doc (fuel - 1) (start + 500) (idx + 1) := by
  cases fuel with
  | zero => omega
  | succ f =>
    have hmin : min (start + 600) words.length = start + 600 := Nat.min_eq_left (by omega)
    have hadv : start + 600 - 100 = start + 500 := by omega
    simp only [createChunksLoop, hmin, hadv]
    rw [if_pos (by omega), if_neg (by omega)]
    simp only [chunkAt, hmin, Nat.succ_sub_one]

theorem createChunksLoop_past_end (words : List String) (doc : String)
    (fuel start idx : Nat) (h1 : words.length ≤ start) :
    createChunksLoop words doc fuel start idx = [] := by
  cases fuel with
  | zero => rfl
  | succ f =>
    simp only [createChunksLoop]
    rw [if_neg (by omega)]

/-- Every chunk the loop emits is the window body at some cursor position
inside the word sequence. -/
theorem createChunksLoop_mem (words : List String) (doc : String) :
    ∀ fuel start idx c, c ∈ createChunksLoop words doc fuel start idx →
      ∃ s j, s < words.length ∧ start ≤ s ∧ c = chunkAt words doc s j := by
  intro fuel
  induction fuel with
  | zero =>
    intro start idx c hc
    simp [createChunksLoop] at hc
  | succ f ih =>
    intro start idx c hc
    by_cases h1 : start < words.length
    · by_cases h2 : words.length ≤ start + 600
      · rw [createChunksLoop_end words doc _ start idx h1 h2 (by omega)] at hc
        rw [List.mem_singleton] at hc
        exact ⟨start, idx, h1, Nat.le_refl _, hc⟩
      · push_neg at h2
        rw [createChunksLoop_step words doc _ start idx h2 (by omega)] at hc
        rcases List.mem_cons.mp hc with hc' | hc'
        · exact ⟨start, idx, h1, Nat.le_refl _, hc'⟩
        · simp only [Nat.succ_sub_one] at hc'
          obtain ⟨s, j, hs, hss, hceq⟩ := ih (start + 500) (idx + 1) c hc'
          exact ⟨s, j, hs, by omega, hceq⟩
    · rw [createChunksLoop_past_end words doc _ start idx (by omega)] at hc
      simp at hc

/-- The emitted `chunk_index` values are consecutive starting at the
initial index. -/
theorem createChunksLoop_map_index (words : List String) (doc : String) :
    ∀ fuel start idx, words.length - start ≤ fuel →
      (createChunksLoop words doc fuel start idx).map (fun c => c.chunk_index)
        = List.range' idx (createChunksLoop words doc fuel start idx).length := by
  intro fuel
  induction fuel with
  | zero =>
    intro start idx hf
    rw [createChunksLoop_past_end words doc _ start idx (by omega)]
    rfl
  | succ f ih =>
    intro start idx hf
    by_cases h1 : start < words.length
    · by_cases h2 : words.length ≤ start + 600
      · rw [createChunksLoop_end words doc _ start idx h1 h2 (by omega)]
        simp [chunkAt_index]
      · push_neg at h2
        rw [createChunksLoop_step words doc _ start idx h2 (by omega)]
        simp only [Nat.succ_sub_one, List.map_cons, List.length_cons, chunkAt_index]
        rw [List.range'_succ, ih (start + 500) (idx + 1) (by omega)]
    · rw [createChunksLoop_past_end words doc _ start idx (by omega)]
      rfl

theorem createChunksLoop_head (words : List String) (doc : String)
    (fuel start idx : Nat) (h1 : start < words.length) (hf : 0 < fuel) :
    (createChunksLoop words doc fuel start idx).head?
      = some (chunkAt words doc start idx) := by
  by_cases h2 : words.length ≤ start + 600
  · rw [createChunksLoop_end words doc fuel start idx h1 h2 hf]
    rfl
  · push_neg at h2
    rw [createChunksLoop_step words doc fuel start idx h2 hf]
    rfl

/-- Along the emitted chunk sequence the `(start_char, end_char)` pairs
are non-decreasing. -/
theorem createChunksLoop_chain (words : List String) (doc : String) :
    ∀ fuel start idx, words.length - start ≤ fuel →
      List.Chain'
        (fun a b => a.start_char ≤ b.start_char ∧ a.end_char ≤ b.end_char)
        (createChunksLoop words doc fuel start idx) := by
  intro fuel
  induction fuel with
  | zero =>
    intro start idx hf
    rw [createChunksLoop_past_end words doc _ start idx (by omega)]
    exact List.chain'_nil
  | succ f ih =>
    intro start idx hf
    by_cases h1 : start < words.length
    · by_cases h2 : words.length ≤ start + 600
      · rw [createChunksLoop_end words doc _ start idx h1 h2 (by omega)]
        exact List.chain'_singleton _
      · push_neg at h2
        rw [createChunksLoop_step words doc _ start idx h2 (by omega)]
        simp only [Nat.succ_sub_one]
        have hrec := ih (start + 500) (idx + 1) (by omega)
        have hh := createChunksLoop_head words doc f (start + 500) (idx + 1)
          (by omega) (by omega)
        cases hL : createChunksLoop words doc f (start + 500) (idx + 1) with
        | nil => exact List.chain'_singleton _
        | cons y t =>
          rw [hL] at hrec hh
          rw [List.head?_cons, Option.some_inj] at hh
          rw [List.chain'_cons]
          refine ⟨?_, hrec⟩
          rw [hh]
          exact chunkAt_offsets_mono words doc idx (idx + 1) (by omega) (by omega)
    · rw [createChunksLoop_past_end words doc _ start idx (by omega)]
      exact List.chain'_nil

/- ### Where a window's content sits inside the normalized text -/

theorem string_data_space : (" " : String).data = [' '] := rfl

/-- The joined word sequence decomposes around the window `[s, e)`:
some prefix of length `startCharAt words s`, then the joined window,
then a tail. -/
theorem joinSp_decomp (words : List String) {s e : Nat} (hse : s < e)
    (hel : e ≤ words.length) :
    ∃ pre tail, (joinSp words).data
        = pre ++ (joinSp ((words.drop s).take (e - s))).data ++ tail
      ∧ pre.length = startCharAt words s := by
  have hmne : (words.drop s).take (e - s) ≠ [] := by
    rw [Ne, List.take_eq_nil_iff]
    push_neg
    refine ⟨by omega, ?_⟩
    rw [Ne, List.drop_eq_nil_iff]
    omega
  have hds : words.drop s = (words.drop s).take (e - s) ++ words.drop e := by
    conv_lhs => rw [← List.take_append_drop (e - s) (words.drop s)]
    congr 1
    rw [List.drop_drop]
    congr 1
    omega
  rcases Nat.eq_zero_or_pos s with rfl | hs
  · simp only [List.drop_zero, Nat.sub_zero] at hds hmne ⊢
    cases hrest : words.drop e with
    | nil =>
      rw [hrest, List.append_nil] at hds
      refine ⟨[], [], ?_, rfl⟩
      conv_lhs => rw [hds]
      rw [List.nil_append, List.append_nil]
    | cons r rs =>
      rw [hrest] at hds
      refine ⟨[], ' ' :: (joinSp (r :: rs)).data, ?_, rfl⟩
      conv_lhs => rw [hds, joinSp_append _ _ hmne (by simp)]
      simp only [string_data_append, string_data_space, List.nil_append,
        List.append_assoc, List.singleton_append]
  · have hwne : words ≠ [] := by
      intro hnil
      rw [hnil] at hel
      simp at hel
      omega
    have hts : words.take s ≠ [] := by
      rw [Ne, List.take_eq_nil_iff]
      push_neg
      exact ⟨by omega, hwne⟩
    have hdsne : words.drop s ≠ [] := by
      rw [hds]
      intro hx
      exact hmne (List.append_eq_nil.mp hx).1
    have hmain : joinSp words = joinSp (words.take s) ++ " " ++ joinSp (words.drop s) := by
      conv_lhs => rw [← List.take_append_drop s words]
      exact joinSp_append _ _ hts hdsne
    have hpre : ((joinSp (words.take s)).data ++ [' ']).length = startCharAt words s := by
      rw [List.length_append, startCharAt_pos _ _ hs, string_length_data]
      rfl
    cases hrest : words.drop e with
    | nil =>
      rw [hrest, List.append_nil] at hds
      refine ⟨(joinSp (words.take s)).data ++ [' '], [], ?_, hpre⟩
      conv_lhs => rw [hmain, hds]
      simp only [string_data_append, string_data_space, List.append_assoc,
        List.append_nil]
    | cons r rs =>
      rw [hrest] at hds
      refine ⟨(joinSp (words.take s)).data ++ [' '],
        ' ' :: (joinSp (r :: rs)).data, ?_, hpre⟩
      conv_lhs => rw [hmain, hds, joinSp_append _ _ hmne (by simp)]
      simp only [string_data_append, string_data_space, List.append_assoc,
        List.singleton_append, List.cons_append, List.nil_append]

/-- A window's `content` is exactly the slice
`[start_char, end_char)` of the joined word sequence. -/
theorem chunkAt_content_extract (words : List String) (doc : String) (s i : Nat)
    (hs : s < words.length) :
    ((joinSp words).data.drop (chunkAt words doc s i).start_char).take
        ((chunkAt words doc s i).end_char - (chunkAt words doc s i).start_char)
      = (chunkAt words doc s i).content.data := by
  have he1 : s < min (s + 600) words.length := by omega
  have he2 : min (s + 600) words.length ≤ words.length := by omega
  obtain ⟨pre, tail, hdec, hlen⟩ := joinSp_decomp words he1 he2
  have hsub : (chunkAt words doc s i).end_char - (chunkAt words doc s i).start_char
      = (chunkAt words doc s i).content.length := by
    rw [chunkAt_end_char, chunkAt_start_char]
    omega
  rw [hsub, chunkAt_start_char, chunkAt_content, hdec, ← hlen, List.append_assoc,
    List.drop_left, string_length_data, List.take_left]


theorem string_ne_empty_of_length_pos (s : String) (h : 0 < s.length) : s ≠ "" := by
  intro hs
  rw [hs] at h
  exact Nat.lt_irrefl 0 h

theorem dotSummary_length_pos (s : String) : 0 < (dotSummary s).length := by
  unfold dotSummary
  by_cases h : endsWithDot s
  · rw [if_pos h]
    unfold endsWithDot at h
    rcases hd : s.data with _ | ⟨c, t⟩
    · rw [hd] at h
      simp at h
    · rw [string_length_data, hd]
      simp
  · rw [if_neg h, string_length_append]
    have : ("." : String).length = 1 := rfl
    omega

theorem capSummary_length_le (s : String) : (capSummary s).length ≤ 300 := by
  unfold capSummary
  by_cases h : 300 < s.length
  · rw [if_pos h, string_length_append]
    have h1 : (String.mk (s.data.take 297)).length = min 297 s.data.length := by
      rw [string_length_data]
      exact List.length_take _ _
    have h2 : ("..." : String).length = 3 := rfl
    rw [string_length_data] at h
    omega
  · rw [if_neg h]
    omega

theorem capSummary_length_pos (s : String) (h : 0 < s.length) :
    0 < (capSummary s).length := by
  unfold capSummary
  by_cases h3 : 300 < s.length
  · rw [if_pos h3, string_length_append]
    have h2 : ("..." : String).length = 3 := rfl
    omega
  · rw [if_neg h3]
    exact h

/- ### Store-level helper lemmas -/

theorem filter_bne_eq_self_of_not_mem {p : String} {fs : List String} (h : p ∉ fs) :
    fs.filter (fun q => q != p) = fs := by
  rw [List.filter_eq_self]
  intro a ha
  rw [bne_iff_ne]
  intro hq
  exact h (hq ▸ ha)

theorem deleteFile_present (st : SysState) (p : String) (hf : p ∉ st.files) :
    deleteFile { st with files := p :: st.files } p = (true, st) := by
  unfold deleteFile
  rw [if_pos (List.mem_cons_self p st.files)]
  rw [Prod.mk.injEq]
  refine ⟨rfl, ?_⟩
  cases st with
  | mk f v m =>
    simp only [SysState.mk.injEq, and_true, true_and]
    rw [List.filter_cons_of_neg (by simp)]
    exact filter_bne_eq_self_of_not_mem hf

theorem deleteFile_absent (st : SysState) (p : String) (hf : p ∉ st.files) :
    deleteFile st p = (false, st) := by
  unfold deleteFile
  rw [if_neg hf]

theorem mem_insertDesc {x s : DocumentSummary} :
    ∀ {l : List DocumentSummary}, x ∈ insertDesc s l → x = s ∨ x ∈ l := by
  intro l
  induction l with
  | nil =>
    intro hx
    simp [insertDesc] at hx
    exact Or.inl hx
  | cons t ts ih =>
    intro hx
    unfold insertDesc at hx
    by_cases hc : s.created_at < t.created_at
    · rw [if_pos hc] at hx
      rcases List.mem_cons.mp hx with rfl | hx'
      · exact Or.inr (List.mem_cons_self _ _)
      · rcases ih hx' with h | h
        · exact Or.inl h
        · exact Or.inr (List.mem_cons_of_mem _ h)
    · rw [if_neg hc] at hx
      rcases List.mem_cons.mp hx with rfl | hx'
      · exact Or.inl rfl
      · exact Or.inr hx'

theorem mem_sortByCreatedDesc {x : DocumentSummary} :
    ∀ {l : List DocumentSummary}, x ∈ sortByCreatedDesc l → x ∈ l := by
  intro l
  induction l with
  | nil =>
    intro hx
    exact hx
  | cons t ts ih =>
    intro hx
    unfold sortByCreatedDesc at hx
    rcases mem_insertDesc hx with rfl | hx'
    · exact List.mem_cons_self _ _
    · exact List.mem_cons_of_mem _ (ih hx')

theorem lookupDoc_none_keys {m : List (String × Document)} {doc_id : String}
    (h : lookupDoc m doc_id = none) : ∀ p ∈ m, p.1 ≠ doc_id := by
  intro p hp
  unfold lookupDoc at h
  rw [Option.map_eq_none'] at h
  have := List.find?_eq_none.mp h p hp
  simpa using this

theorem lookupDoc_filter_out (m : List (String × Document)) (doc_id : String) :
    lookupDoc (m.filter (fun p => p.1 != doc_id)) doc_id = none := by
  unfold lookupDoc
  rw [Option.map_eq_none', List.find?_eq_none]
  intro p hp
  have := (List.mem_filter.mp hp).2
  rw [bne_iff_ne] at this
  simpa using this

theorem vsDeleteDocument_metadata (st : SysState) (doc_id : String) :
    (vsDeleteDocument st doc_id).2.metadata = st.metadata := by
  unfold vsDeleteDocument
  split <;> rfl

theorem vsDeleteDocument_files (st : SysState) (doc_id : String) :
    (vsDeleteDocument st doc_id).2.files = st.files := by
  unfold vsDeleteDocument
  split <;> rfl

theorem deleteFile_metadata (st : SysState) (p : String) :
    (deleteFile st p).2.metadata = st.metadata := by
  unfold deleteFile
  split <;> rfl

theorem deleteFile_vectors (st : SysState) (p : String) :
    (deleteFile st p).2.vectors = st.vectors := by
  unfold deleteFile
  split <;> rfl

/- ### Claim theorems: deletion and metadata -/

/-- C10: adding a document whose identifier already exists in the
metadata store returns `false` and leaves the store unchanged — the
existing record is not overwritten and nothing is persisted. -/
theorem addDocument_duplicate_rejected (st : SysState) (doc d : Document)
    (h : lookupDoc st.metadata doc.id = some d) :
    dmAddDocument st doc = (false, st) := by
  unfold dmAddDocument
  rw [if_pos (by rw [h]; rfl)]

theorem addDocument_duplicate_rejected_witness :
    lookupDoc (SysState.mk [] [] [("d", ⟨"d", "n", "pdf", "/f", "s", [], 0, 0⟩)]).metadata
        (Document.mk "d" "n2" "pdf" "/g" "s2" [] 1 1).id
      = some (Document.mk "d" "n" "pdf" "/f" "s" [] 0 0)
    ∧ dmAddDocument (SysState.mk [] [] [("d", ⟨"d", "n", "pdf", "/f", "s", [], 0, 0⟩)])
        (Document.mk "d" "n2" "pdf" "/g" "s2" [] 1 1)
      = (false, SysState.mk [] [] [("d", ⟨"d", "n", "pdf", "/f", "s", [], 0, 0⟩)]) :=
  ⟨by decide,
    addDocument_duplicate_rejected
      (SysState.mk [] [] [("d", ⟨"d", "n", "pdf", "/f", "s", [], 0, 0⟩)])
      (Document.mk "d" "n2" "pdf" "/g" "s2" [] 1 1)
      (Document.mk "d" "n" "pdf" "/f" "s" [] 0 0) (by decide)⟩

/-- C8: deleting an already-deleted or never-existing document
identifier returns `false` rather than an error and leaves all three
stores unchanged; likewise the vector-store delete on a document with no
indexed chunks is a no-op reporting that nothing was found. -/
theorem delete_missing_is_noop (st : SysState) (doc_id : String) (vsOk fileOk : Bool) :
    (getDocument st doc_id = none →
        dmDeleteDocument vsOk fileOk st doc_id = (false, st, []))
    ∧ (vectorsFor st doc_id = [] → vsDeleteDocument st doc_id = (false, st)) := by
  constructor
  · intro h
    unfold dmDeleteDocument
    rw [h]
  · intro h
    unfold vectorsFor at h
    unfold vsDeleteDocument
    rw [if_pos (by rw [h]; rfl)]

theorem delete_missing_is_noop_witness :
    getDocument (SysState.mk [] [] []) "x" = none
    ∧ vectorsFor (SysState.mk [] [] []) "x" = []
    ∧ dmDeleteDocument true true (SysState.mk [] [] []) "x"
        = (false, SysState.mk [] [] [], [])
    ∧ vsDeleteDocument (SysState.mk [] [] []) "x" = (false, SysState.mk [] [] []) := by
  have h := delete_missing_is_noop (SysState.mk [] [] []) "x" true true
  exact ⟨by decide, by decide, h.1 (by decide), h.2 (by decide)⟩

/-- C9: for a document present in the metadata store, deletion attempts
the removals in the order vector-index entries, raw file, metadata
record; injected failures of the vector-index or file step do not abort
the remaining steps — the metadata record is still removed and the
overall delete reports success. -/
theorem delete_order_and_success (st : SysState) (doc_id : String)
    (document : Document) (vsOk fileOk : Bool)
    (h : getDocument st doc_id = some document) :
    (dmDeleteDocument vsOk fileOk st doc_id).1 = true
    ∧ (dmDeleteDocument vsOk fileOk st doc_id).2.2
        = [DeleteAction.vecDelete doc_id, DeleteAction.fileDelete document.file_path,
           DeleteAction.metaDelete doc_id]
    ∧ lookupDoc (dmDeleteDocument vsOk fileOk st doc_id).2.1.metadata doc_id = none := by
  have hm1 : (if vsOk then vsDeleteDocument st doc_id else (false, st)).2.metadata
      = st.metadata := by
    by_cases hb : vsOk
    · rw [if_pos hb]
      exact vsDeleteDocument_metadata st doc_id
    · rw [if_neg hb]
  have hm2 : (if fileOk then
        deleteFile (if vsOk then vsDeleteDocument st doc_id else (false, st)).2
          document.file_path
      else
        (false, (if vsOk then vsDeleteDocument st doc_id else (false, st)).2)).2.metadata
      = st.metadata := by
    by_cases hb : fileOk
    · rw [if_pos hb, deleteFile_metadata, hm1]
    · rw [if_neg hb]
      exact hm1
  unfold dmDeleteDocument
  rw [h]
  dsimp only
  rw [if_pos (by rw [hm2]; unfold getDocument at h; rw [h]; rfl)]
  refine ⟨rfl, rfl, ?_⟩
  dsimp only
  rw [hm2]
  exact lookupDoc_filter_out st.metadata doc_id

theorem delete_order_and_success_witness :
    getDocument
        (SysState.mk ["/f"] [] [("d", ⟨"d", "n", "pdf", "/f", "s", [], 0, 0⟩)]) "d"
      = some (Document.mk "d" "n" "pdf" "/f" "s" [] 0 0)
    ∧ (dmDeleteDocument false false
          (SysState.mk ["/f"] [] [("d", ⟨"d", "n", "pdf", "/f", "s", [], 0, 0⟩)]) "d").1
        = true
    ∧ (dmDeleteDocument false false
          (SysState.mk ["/f"] [] [("d", ⟨"d", "n", "pdf", "/f", "s", [], 0, 0⟩)]) "d").2.2
        = [DeleteAction.vecDelete "d", DeleteAction.fileDelete "/f",
           DeleteAction.metaDelete "d"]
    ∧ lookupDoc (dmDeleteDocument false false
          (SysState.mk ["/f"] [] [("d", ⟨"d", "n", "pdf", "/f", "s", [], 0, 0⟩)]) "d").2.1.metadata
        "d" = none := by
  have h := delete_order_and_success
    (SysState.mk ["/f"] [] [("d", ⟨"d", "n", "pdf", "/f", "s", [], 0, 0⟩)]) "d"
    (Document.mk "d" "n" "pdf" "/f" "s" [] 0 0) false false (by decide)
  exact ⟨by decide, h.1, h.2.1, h.2.2⟩

/- ### Ingestion orchestration lemmas -/

theorem vsAddDocument_fail (st : SysState) (doc : Document) :
    vsAddDocument false st doc = (false, st) := by
  unfold vsAddDocument
  rw [if_neg (by simp)]

theorem vsAddDocument_ok (F : List String) (V : List VecEntry)
    (M : List (String × Document)) (doc : Document) :
    vsAddDocument true (SysState.mk F V M) doc
      = (true, SysState.mk F (V ++ doc.chunks.map (vecEntryOf doc)) M) := by
  unfold vsAddDocument
  rw [if_pos rfl]

theorem dmAddDocument_dup (st : SysState) (doc : Document)
    (h : (lookupDoc st.metadata doc.id).isSome = true) :
    dmAddDocument st doc = (false, st) := by
  unfold dmAddDocument
  rw [if_pos h]

theorem deleteFile_push (F : List String) (V : List VecEntry)
    (M : List (String × Document)) (p : String) (hf : p ∉ F) :
    deleteFile (SysState.mk (p :: F) V M) p = (true, SysState.mk F V M) := by
  unfold deleteFile
  rw [if_pos (List.mem_cons_self _ _)]
  dsimp only
  rw [List.filter_cons_of_neg (by simp), filter_bne_eq_self_of_not_mem hf]

theorem deleteFile_miss (F : List String) (V : List VecEntry)
    (M : List (String × Document)) (p : String) (hf : p ∉ F) :
    deleteFile (SysState.mk F V M) p = (false, SysState.mk F V M) := by
  unfold deleteFile
  rw [if_neg hf]

theorem filter_bne_vectors {vs : List VecEntry} {doc_id : String}
    (h : vs.filter (fun e => e.document_id == doc_id) = []) :
    vs.filter (fun e => e.document_id != doc_id) = vs := by
  rw [List.filter_eq_self]
  intro e he
  have h2 := List.filter_eq_nil_iff.mp h e he
  rw [bne_iff_ne]
  simpa using h2

theorem filter_bne_entries (doc : Document) :
    (doc.chunks.map (vecEntryOf doc)).filter (fun e => e.document_id != doc.id) = [] := by
  rw [List.filter_eq_nil_iff]
  intro e he
  obtain ⟨c, _, rfl⟩ := List.mem_map.mp he
  simp [vecEntryOf]

theorem filter_beq_entries (doc : Document) :
    (doc.chunks.map (vecEntryOf doc)).filter (fun e => e.document_id == doc.id)
      = doc.chunks.map (vecEntryOf doc) := by
  rw [List.filter_eq_self]
  intro e he
  obtain ⟨c, _, rfl⟩ := List.mem_map.mp he
  simp [vecEntryOf]

/-- Compensating `vector_store.delete_document` after an `add` restores
the original collection when the document had no entries beforehand. -/
theorem vsDelete_cleanup (F : List String) (V : List VecEntry)
    (M : List (String × Document)) (doc : Document)
    (hv : V.filter (fun e => e.document_id == doc.id) = []) :
    (vsDeleteDocument
        (SysState.mk F (V ++ doc.chunks.map (vecEntryOf doc)) M) doc.id).2
      = SysState.mk F V M := by
  unfold vsDeleteDocument
  by_cases hempty :
      (((V ++ doc.chunks.map (vecEntryOf doc)).filter
        (fun e => e.document_id == doc.id))).isEmpty
  · rw [if_pos hempty]
    dsimp only
    rw [List.filter_append, hv, List.nil_append, filter_beq_entries] at hempty
    rw [List.isEmpty_iff.mp hempty, List.append_nil]
  · rw [if_neg hempty]
    dsimp only
    rw [List.filter_append, filter_bne_vectors hv, filter_bne_entries, List.append_nil]

/-- Vector-index `add` failure: the saved raw file is deleted, nothing
else changes, and the route fails with the vector-store message. -/
theorem uploadDocument_vs_fail (F : List String) (V : List VecEntry)
    (M : List (String × Document)) (doc : Document) (hf : doc.file_path ∉ F) :
    uploadDocument false (SysState.mk F V M) doc
      = (UploadResult.failure 500 "Failed to add document to vector store",
         SysState.mk F V M) := by
  unfold uploadDocument
  dsimp only
  rw [vsAddDocument_fail]
  dsimp only
  rw [if_pos rfl, deleteFile_push F V M doc.file_path hf]
  dsimp only
  rw [deleteFile_miss F V M doc.file_path hf]

/-- Metadata persist failure: the raw file and the vector entries of the
document are both removed and the route fails with the metadata
message. -/
theorem uploadDocument_meta_fail (F : List String) (V : List VecEntry)
    (M : List (String × Document)) (doc : Document) (hf : doc.file_path ∉ F)
    (hv : V.filter (fun e => e.document_id == doc.id) = [])
    (hm : (lookupDoc M doc.id).isSome = true) :
    uploadDocument true (SysState.mk F V M) doc
      = (UploadResult.failure 500 "Failed to save document metadata",
         SysState.mk F V M) := by
  unfold uploadDocument
  dsimp only
  rw [vsAddDocument_ok]
  dsimp only
  rw [if_neg (by simp), dmAddDocument_dup _ _ hm]
  dsimp only
  rw [if_pos rfl,
    deleteFile_push F (V ++ doc.chunks.map (vecEntryOf doc)) M doc.file_path hf]
  dsimp only
  rw [vsDelete_cleanup F V M doc hv]
  rw [deleteFile_miss F V M doc.file_path hf]

/-- C1: ingestion is compensating across the three stores.  If the
vector-index `add` fails, the saved raw file is deleted, no metadata
record is created, the route reports failure, and a subsequent listing
shows no trace of the attempted document.  If the metadata persist step
fails, the vector-index entries of the document and the raw file are
both deleted and the route reports failure.  (`hwf` is the metadata
dict-key invariant: every record is stored under its document's id.) -/
theorem upload_compensating (st : SysState) (doc : Document)
    (hf : doc.file_path ∉ st.files)
    (hv : vectorsFor st doc.id = [])
    (hwf : ∀ p ∈ st.metadata, p.2.id = p.1) :
    (lookupDoc st.metadata doc.id = none →
        uploadDocument false st doc
            = (UploadResult.failure 500 "Failed to add document to vector store", st)
          ∧ ∀ sm ∈ getAllDocuments (uploadDocument false st doc).2, sm.id ≠ doc.id)
    ∧ ((lookupDoc st.metadata doc.id).isSome = true →
        uploadDocument true st doc
            = (UploadResult.failure 500 "Failed to save document metadata", st)
          ∧ vectorsFor (uploadDocument true st doc).2 doc.id = []
          ∧ doc.file_path ∉ (uploadDocument true st doc).2.files) := by
  obtain ⟨F, V, M⟩ := st
  constructor
  · intro hm
    have hres := uploadDocument_vs_fail F V M doc hf
    refine ⟨hres, ?_⟩
    intro sm hsm
    rw [hres] at hsm
    unfold getAllDocuments at hsm
    have hmem := mem_sortByCreatedDesc hsm
    obtain ⟨p, hp, rfl⟩ := List.mem_map.mp hmem
    have h1 : p.2.id = p.1 := hwf p hp
    have h2 : p.1 ≠ doc.id := lookupDoc_none_keys hm p hp
    show (summarize p.2).id ≠ doc.id
    unfold summarize
    dsimp only
    rw [h1]
    exact h2
  · intro hm
    have hv' : V.filter (fun e => e.document_id == doc.id) = [] := hv
    have hres := uploadDocument_meta_fail F V M doc hf hv' hm
    refine ⟨hres, ?_, ?_⟩
    · rw [hres]
      exact hv
    · rw [hres]
      exact hf

theorem upload_compensating_witness :
    ((Document.mk "d" "n" "pdf" "/f" "s" [DocumentChunk.mk "c" "d" "hello" 0 0 5] 7 9).file_path
        ∉ (SysState.mk [] [] []).files)
    ∧ vectorsFor (SysState.mk [] [] [])
        (Document.mk "d" "n" "pdf" "/f" "s" [DocumentChunk.mk "c" "d" "hello" 0 0 5] 7 9).id = []
    ∧ lookupDoc (SysState.mk [] [] []).metadata "d" = none
    ∧ uploadDocument false (SysState.mk [] [] [])
        (Document.mk "d" "n" "pdf" "/f" "s" [DocumentChunk.mk "c" "d" "hello" 0 0 5] 7 9)
      = (UploadResult.failure 500 "Failed to add document to vector store",
         SysState.mk [] [] [])
    ∧ (lookupDoc
          (SysState.mk [] []
            [("d", ⟨"d", "old", "pdf", "/g", "s0", [], 1, 2⟩)]).metadata "d").isSome = true
    ∧ uploadDocument true
        (SysState.mk [] [] [("d", ⟨"d", "old", "pdf", "/g", "s0", [], 1, 2⟩)])
        (Document.mk "d" "n" "pdf" "/f" "s" [DocumentChunk.mk "c" "d" "hello" 0 0 5] 7 9)
      = (UploadResult.failure 500 "Failed to save document metadata",
         SysState.mk [] [] [("d", ⟨"d", "old", "pdf", "/g", "s0", [], 1, 2⟩)]) := by
  have h1 := (upload_compensating (SysState.mk [] [] [])
    (Document.mk "d" "n" "pdf" "/f" "s" [DocumentChunk.mk "c" "d" "hello" 0 0 5] 7 9)
    (by decide) (by decide) (by intro p hp; simp at hp)).1 (by decide)
  have h2 := (upload_compensating
    (SysState.mk [] [] [("d", ⟨"d", "old", "pdf", "/g", "s0", [], 1, 2⟩)])
    (Document.mk "d" "n" "pdf" "/f" "s" [DocumentChunk.mk "c" "d" "hello" 0 0 5] 7 9)
    (by decide) (by decide) (by decide)).2 (by decide)
  exact ⟨by decide, by decide, by decide, h1.1, by decide, h2.1⟩

/- ### Claim theorems: the chunker -/

/-- C2: the chunk loop terminates: an iteration whose window reaches the
end of the word sequence emits it and ends the loop (no trailing
duplicate window), and any other iteration advances the cursor by
`600 - 100 = 500` words, strictly decreasing the remaining word count. -/
theorem chunk_loop_terminates (words : List String) (doc_id : String)
    (fuel start idx : Nat) (hf : words.length - start ≤ fuel)
    (h1 : start < words.length) :
    (words.length ≤ start + 600 →
        createChunksLoop words doc_id fuel start idx
          = [chunkAt words doc_id start idx])
    ∧ (start + 600 < words.length →
        createChunksLoop words doc_id fuel start idx
            = chunkAt words doc_id start idx
                :: createChunksLoop words doc_id (fuel - 1) (start + 500) (idx + 1)
          ∧ words.length - (start + 500) < words.length - start) := by
  constructor
  · intro h2
    exact createChunksLoop_end words doc_id fuel start idx h1 h2 (by omega)
  · intro h2
    exact ⟨createChunksLoop_step words doc_id fuel start idx h2 (by omega), by omega⟩

theorem chunk_loop_terminates_witness :
    (List.replicate 700 "a").length - 0 ≤ 700
    ∧ 0 < (List.replicate 700 "a").length
    ∧ createChunksLoop (List.replicate 700 "a") "d" 700 0 0
        = chunkAt (List.replicate 700 "a") "d" 0 0
            :: createChunksLoop (List.replicate 700 "a") "d" 699 500 1
    ∧ (List.replicate 700 "a").length - (0 + 500) < (List.replicate 700 "a").length - 0
    ∧ createChunksLoop (List.replicate 700 "a") "d" 699 500 1
        = [chunkAt (List.replicate 700 "a") "d" 500 1] := by
  have hl : (List.replicate 700 ("a" : String)).length = 700 :=
    List.length_replicate _ _
  have ha := chunk_loop_terminates (List.replicate 700 "a") "d" 700 0 0
    (by omega) (by omega)
  have hb := chunk_loop_terminates (List.replicate 700 "a") "d" 699 500 1
    (by omega) (by omega)
  refine ⟨by omega, by omega, ?_, ?_, ?_⟩
  · exact (ha.2 (by omega)).1
  · exact (ha.2 (by omega)).2
  · exact hb.1 (by omega)

/-- C4: a non-empty text of at most 600 words yields exactly one chunk
covering the full (normalized) text, with `chunk_index = 0`,
`start_char = 0` and `end_char` the length of the joined text. -/
theorem chunks_of_short_text (text doc_id : String)
    (h0 : pySplit text ≠ []) (h6 : (pySplit text).length ≤ 600) :
    createChunks text doc_id
      = [{ id := mkChunkId doc_id 0, document_id := doc_id,
           content := joinSp (pySplit text), chunk_index := 0,
           start_char := 0, end_char := (joinSp (pySplit text)).length }] := by
  have hE : (pySplit text).isEmpty = false := List.isEmpty_eq_false.mpr h0
  have hlen : 0 < (pySplit text).length := List.length_pos.mpr h0
  have hcc : createChunks text doc_id
      = createChunksLoop (pySplit text) doc_id (pySplit text).length 0 0 := by
    unfold createChunks
    dsimp only
    rw [hE]
    rfl
  rw [hcc, createChunksLoop_end (pySplit text) doc_id _ 0 0 hlen (by omega) (by omega)]
  unfold chunkAt
  dsimp only
  rw [Nat.min_eq_right (by omega), List.drop_zero, Nat.sub_zero, List.take_length,
    startCharAt_zero, Nat.zero_add]

theorem chunks_of_short_text_witness :
    pySplit "alpha beta gamma delta epsilon" ≠ []
    ∧ (pySplit "alpha beta gamma delta epsilon").length ≤ 600
    ∧ createChunks "alpha beta gamma delta epsilon" "doc1"
        = [{ id := mkChunkId "doc1" 0, document_id := "doc1",
             content := "alpha beta gamma delta epsilon", chunk_index := 0,
             start_char := 0, end_char := 30 }] := by
  have h := chunks_of_short_text "alpha beta gamma delta epsilon" "doc1"
    (by decide) (by decide)
  refine ⟨by decide, by decide, ?_⟩
  rw [h]
  decide

/-- C5: for a non-empty text the chunk sequence has `chunk_index` values
exactly `0..n-1`, every chunk satisfies `end_char > start_char`, and the
`(start_char, end_char)` pairs are non-decreasing across consecutive
chunks. -/
theorem chunk_sequence_invariants (text doc_id : String) (h : text ≠ "") :
    ((createChunks text doc_id).map (fun c => c.chunk_index)
        = List.range (createChunks text doc_id).length)
    ∧ (∀ c ∈ createChunks text doc_id, c.start_char < c.end_char)
    ∧ List.Chain' (fun a b => a.start_char ≤ b.start_char ∧ a.end_char ≤ b.end_char)
        (createChunks text doc_id) := by
  by_cases hE : (pySplit text).isEmpty
  · have hcc : createChunks text doc_id = [] := by
      unfold createChunks
      dsimp only
      rw [hE]
      rfl
    rw [hcc]
    refine ⟨rfl, ?_, List.chain'_nil⟩
    intro c hc
    simp at hc
  · have hE' : (pySplit text).isEmpty = false := by
      cases hb : (pySplit text).isEmpty
      · rfl
      · exact absurd hb hE
    have hcc : createChunks text doc_id
        = createChunksLoop (pySplit text) doc_id (pySplit text).length 0 0 := by
      unfold createChunks
      dsimp only
      rw [hE']
      rfl
    rw [hcc]
    refine ⟨?_, ?_, ?_⟩
    · rw [createChunksLoop_map_index (pySplit text) doc_id (pySplit text).length 0 0
        (by omega), List.range_eq_range']
    · intro c hc
      obtain ⟨s, j, hs, _, rfl⟩ :=
        createChunksLoop_mem (pySplit text) doc_id _ 0 0 c hc
      rw [chunkAt_start_char, chunkAt_end_char]
      have hp := chunkAt_content_pos (pySplit text) doc_id s j (pySplit_ne_empty text) hs
      omega
    · exact createChunksLoop_chain (pySplit text) doc_id _ 0 0 (by omega)

theorem chunk_sequence_invariants_witness :
    ("ab cd" ≠ "")
    ∧ (createChunks "ab cd" "d").map (fun c => c.chunk_index)
        = List.range (createChunks "ab cd" "d").length
    ∧ (∀ c ∈ createChunks "ab cd" "d", c.start_char < c.end_char)
    ∧ List.Chain' (fun a b => a.start_char ≤ b.start_char ∧ a.end_char ≤ b.end_char)
        (createChunks "ab cd" "d") := by
  have h := chunk_sequence_invariants "ab cd" "d" (by decide)
  exact ⟨by decide, h.1, h.2.1, h.2.2⟩

/-- C6 counterexample: for the original text `"a  b"` (two spaces), the
single chunk's content `"a b"` is not a contiguous substring of the
original text, so `content` offsets cannot index the original text. -/
theorem chunk_content_not_substring_of_original :
    ((createChunks "a  b" "d").all fun c => occursIn c.content.data ("a  b").data)
      = false := by
  decide

/-- C6 (amended): each chunk's content is the contiguous slice
`[start_char, end_char)` of the whitespace-normalized text — the words
of the original extracted text joined by single spaces — rather than of
the original text itself. -/
theorem chunk_content_slice_of_normalized (text doc_id : String) :
    ∀ c ∈ createChunks text doc_id,
      ((normJoin text).data.drop c.start_char).take (c.end_char - c.start_char)
        = c.content.data := by
  intro c hc
  unfold createChunks at hc
  dsimp only at hc
  by_cases hE : (pySplit text).isEmpty
  · rw [hE] at hc
    simp at hc
  · have hE' : (pySplit text).isEmpty = false := by
      cases hb : (pySplit text).isEmpty
      · rfl
      · exact absurd hb hE
    rw [hE'] at hc
    simp only [Bool.false_eq_true, if_false] at hc
    obtain ⟨s, j, hs, _, rfl⟩ :=
      createChunksLoop_mem (pySplit text) doc_id _ 0 0 c hc
    exact chunkAt_content_extract (pySplit text) doc_id s j hs

theorem chunk_content_slice_of_normalized_witness :
    chunkAt (pySplit "a  b") "d" 0 0 ∈ createChunks "a  b" "d"
    ∧ (((normJoin "a  b").data.drop (chunkAt (pySplit "a  b") "d" 0 0).start_char).take
          ((chunkAt (pySplit "a  b") "d" 0 0).end_char
            - (chunkAt (pySplit "a  b") "d" 0 0).start_char))
        = (chunkAt (pySplit "a  b") "d" 0 0).content.data :=
  ⟨by decide, chunk_content_slice_of_normalized "a  b" "d" _ (by decide)⟩

/-- Splitting consumes one word and the following space. -/
theorem pySplitAux_word_space (t : List Char) :
    pySplitAux ('a' :: ' ' :: t) [] = "a" :: pySplitAux t [] := rfl

/-- `text.split()` recovers the words of a single-space join of
one-letter words: a concrete family of inputs for the window layout
facts. -/
theorem pySplit_rep (n : Nat) :
    pySplit (joinSp (List.replicate (n + 1) "a")) = List.replicate (n + 1) "a" := by
  induction n with
  | zero => rfl
  | succ m ih =>
    have h2 : joinSp (List.replicate (m + 2) "a")
        = "a" ++ " " ++ joinSp (List.replicate (m + 1) "a") := by
      rw [List.replicate_succ]
      rw [List.replicate_succ]
      exact joinSp_cons_cons _ _ _
    have h3 : ("a" ++ " " ++ joinSp (List.replicate (m + 1) "a")).data
        = 'a' :: ' ' :: (joinSp (List.replicate (m + 1) "a")).data := by
      rw [string_data_append, string_data_append]
      rfl
    unfold pySplit
    rw [h2, h3, pySplitAux_word_space]
    have h4 : pySplitAux (joinSp (List.replicate (m + 1) "a")).data []
        = List.replicate (m + 1) "a" := ih
    rw [h4, ← List.replicate_succ]

/-- C3: a text of exactly 1300 whitespace-separated words yields exactly
3 chunks whose word-index windows are `[0,600)`, `[500,1100)` and
`[1000,1300)` (contents are the joins of those word slices), and the
loop terminates although the last step covers fewer than 600 words. -/
theorem chunks_of_1300_words (text doc_id : String)
    (h : (pySplit text).length = 1300) :
    (createChunks text doc_id).length = 3
    ∧ (createChunks text doc_id).map (fun c => c.chunk_index) = [0, 1, 2]
    ∧ (createChunks text doc_id).map (fun c => c.content)
        = [joinSp ((pySplit text).take 600),
           joinSp (((pySplit text).drop 500).take 600),
           joinSp (((pySplit text).drop 1000).take 300)] := by
  have hE : (pySplit text).isEmpty = false := by
    rw [List.isEmpty_eq_false]
    intro hnil
    rw [hnil] at h
    simp at h
  have hcc : createChunks text doc_id
      = createChunksLoop (pySplit text) doc_id (pySplit text).length 0 0 := by
    unfold createChunks
    dsimp only
    rw [hE]
    rfl
  have s1 : createChunksLoop (pySplit text) doc_id (pySplit text).length 0 0
      = chunkAt (pySplit text) doc_id 0 0
          :: createChunksLoop (pySplit text) doc_id ((pySplit text).length - 1) 500 1 := by
    have := createChunksLoop_step (pySplit text) doc_id (pySplit text).length 0 0
      (by omega) (by omega)
    simpa using this
  have s2 : createChunksLoop (pySplit text) doc_id ((pySplit text).length - 1) 500 1
      = chunkAt (pySplit text) doc_id 500 1
          :: createChunksLoop (pySplit text) doc_id ((pySplit text).length - 1 - 1) 1000 2 := by
    exact createChunksLoop_step (pySplit text) doc_id _ 500 1 (by omega) (by omega)
  have s3 : createChunksLoop (pySplit text) doc_id ((pySplit text).length - 1 - 1) 1000 2
      = [chunkAt (pySplit text) doc_id 1000 2] :=
    createChunksLoop_end (pySplit text) doc_id _ 1000 2 (by omega) (by omega) (by omega)
  rw [hcc, s1, s2, s3]
  refine ⟨rfl, ?_, ?_⟩
  · simp only [List.map_cons, List.map_nil, chunkAt_index]
  · simp only [List.map_cons, List.map_nil, chunkAt_content, h, List.drop_zero]
    norm_num

theorem chunks_of_1300_words_witness :
    (pySplit (joinSp (List.replicate 1300 "a"))).length = 1300
    ∧ (createChunks (joinSp (List.replicate 1300 "a")) "d").length = 3
    ∧ (createChunks (joinSp (List.replicate 1300 "a")) "d").map (fun c => c.chunk_index)
        = [0, 1, 2] := by
  have hsplit : pySplit (joinSp (List.replicate 1300 "a")) = List.replicate 1300 "a" :=
    pySplit_rep 1299
  have hlen : (pySplit (joinSp (List.replicate 1300 "a"))).length = 1300 := by
    rw [hsplit, List.length_replicate]
  have h := chunks_of_1300_words (joinSp (List.replicate 1300 "a")) "d" hlen
  exact ⟨hlen, h.1, h.2.1⟩

/- ### Claim theorem: the summary -/

theorem final_summary_guard (X : String) (hX : X.length ≤ 300) :
    (if X = "" then "Document content extracted successfully" else X) ≠ ""
    ∧ (if X = "" then "Document content extracted successfully" else X).length ≤ 300 := by
  by_cases h : X = ""
  · rw [if_pos h]
    exact ⟨by decide, by decide⟩
  · rw [if_neg h]
    exact ⟨h, hX⟩

/-- C7: the ingestion summary — first 3 chunks joined, up to 3
sentences split on `". "`, capped at 300 characters with an ellipsis,
trailing period appended when missing — is a non-empty string of at most
300 characters, for every chunk list. -/
theorem summary_nonempty_and_capped (chunks : List DocumentChunk) :
    processSummary chunks ≠ "" ∧ (processSummary chunks).length ≤ 300 := by
  unfold processSummary generateSummary
  by_cases h0 : (chunks.take 3).isEmpty
  · rw [if_pos h0]
    exact ⟨by decide, by decide⟩
  · rw [if_neg h0]
    dsimp only
    exact final_summary_guard _ (capSummary_length_le _)
